import Mathlib

/-!
Shallow embedding of the MangaDexMigration repository (manga_compare.py and
manga_parser.py) and verification of its specification.

Python strings are modelled as `List Char`; `str.lower` is modelled by the
ASCII lowering `Char.toLower` (the titles handled by the program are in the
Basic Latin range), `str.strip` by dropping `Char.isWhitespace` characters
from both ends.  Python dicts are modelled as association lists in insertion
order, with assignment to an existing key replacing the value in place, as
CPython does.  Python sets are modelled as duplicate-free lists; the program
only consumes sets through membership tests, emptiness tests and `sorted`,
all of which are independent of iteration order, so a deterministic list
model is faithful.
-/

abbrev Str := List Char

/-- `s.lower()` (ASCII range, as used by the program's titles). -/
def pyLower (s : Str) : Str := s.map Char.toLower

/-- Drop leading whitespace. -/
def pyStripLeft (s : Str) : Str := s.dropWhile Char.isWhitespace

/-- `s.strip()`: drop leading and trailing whitespace. -/
def pyStrip (s : Str) : Str := (pyStripLeft ((pyStripLeft s).reverse)).reverse

def articleThe : Str := ("the ").toList

def articleA : Str := ("a ").toList

def articleAn : Str := ("an ").toList

/-- `normalize_title` from manga_compare.py: lower-case, strip, then remove
one leading article among `"the "`, `"a "`, `"an "`, checked in that order. -/
def normalize_title (title : Str) : Str :=
  let t := pyStrip (pyLower title)
  if articleThe.isPrefixOf t then t.drop 4
  else if articleA.isPrefixOf t then t.drop 2
  else if articleAn.isPrefixOf t then t.drop 3
  else t

/-- The articles in the order the spec lists them. -/
def specArticles : List Str := [articleThe, articleA, articleAn]

/-- The normalizer as §4.1 of the spec describes it, for comparison with the
code's `normalize_title`: trim and lower-case, then strip exactly the first
article of `"the "`, `"a "`, `"an "` that prefixes the result, with its
trailing space, and nothing else. -/
def normalize_title_spec (x : Str) : Str :=
  let t := pyStrip (pyLower x)
  match specArticles.find? (fun a => a.isPrefixOf t) with
  | some a => t.drop a.length
  | none => t

/-- One value of the `titles` dicts built by the two catalog loaders:
`{'original': ..., 'alt_titles': [...]}`. -/
structure TitleEntry where
  original : Str
  alt_titles : List Str
deriving DecidableEq, Repr

/-- A loaded catalog: a Python dict from normalized title to entry,
in insertion order. -/
abbrev Catalog := List (Str × TitleEntry)

/-- Python `set.add`: insert if absent (position is irrelevant to the
program; we append to keep the model deterministic). -/
def setInsert (x : Str) (l : List Str) : List Str :=
  if x ∈ l then l else l ++ [x]

/-- Fold a list of strings into a set. -/
def setOfList (l : List Str) : List Str :=
  l.foldl (fun acc x => setInsert x acc) []

/-- Union of two sets of strings. -/
def setUnionStr (a b : List Str) : List Str :=
  b.foldl (fun acc x => setInsert x acc) a

/-- Python dict assignment `d[k] = v`: replace in place if the key exists,
append otherwise. -/
def dictInsert (k : Str) (v : TitleEntry) (d : Catalog) : Catalog :=
  if d.any (fun p => decide (p.1 = k)) then
    d.map (fun p => if p.1 = k then (k, v) else p)
  else d ++ [(k, v)]

/-- Dict lookup `d[k]` (as an option). -/
def lookupCat (d : Catalog) (k : Str) : Option TitleEntry :=
  (d.find? (fun p => decide (p.1 = k))).map Prod.snd

def mainTitleMarker : Str := ("Main Title:").toList

def libBulletMarker : Str := ("  • ").toList

/-- `pat.replace` scanner with explicit fuel (one unit per character of the
scanned string), modelling Python `s.replace(pat, rep)` for nonempty `pat`. -/
def pyReplaceGo (pat rep : Str) : Nat → Str → Str
  | _, [] => []
  | 0, s => s
  | fuel + 1, c :: rest =>
    if pat ≠ [] ∧ pat.isPrefixOf (c :: rest) then
      rep ++ pyReplaceGo pat rep fuel ((c :: rest).drop pat.length)
    else
      c :: pyReplaceGo pat rep fuel rest

/-- `s.replace(pat, rep)` for nonempty `pat`. -/
def pyReplace (s pat rep : Str) : Str := pyReplaceGo pat rep s.length s

/-- One line of `read_library_titles`'s loop from manga_compare.py: the state
is `(current_main_title, titles)`.  Note the source strips each line before
testing the `'  • '` bullet prefix, so the bullet branch is modelled on the
stripped line exactly as the source has it. -/
def libStep (st : Option Str × Catalog) (rawLine : Str) : Option Str × Catalog :=
  let line := pyStrip rawLine
  if mainTitleMarker.isPrefixOf line then
    let t := pyStrip (pyReplace line mainTitleMarker [])
    (some t, dictInsert (normalize_title t) ⟨t, []⟩ st.2)
  else if libBulletMarker.isPrefixOf line ∧ st.1.isSome then
    match st.1 with
    | none => st
    | some cm =>
      let alt_title := pyStrip (pyReplace line libBulletMarker [])
      let norm_main := normalize_title cm
      let d1 :=
        match lookupCat st.2 norm_main with
        | none => st.2
        | some e =>
          if alt_title ≠ cm ∧ alt_title ∉ e.alt_titles then
            dictInsert norm_main ⟨e.original, e.alt_titles ++ [alt_title]⟩ st.2
          else st.2
      let norm_alt := normalize_title alt_title
      let d2 :=
        if (lookupCat d1 norm_alt).isNone then dictInsert norm_alt ⟨alt_title, []⟩ d1
        else d1
      (some cm, d2)
  else st

/-- `read_library_titles` from manga_compare.py, over the lines of the
library file. -/
def read_library_titles (fileLines : List Str) : Catalog :=
  (fileLines.foldl libStep (none, [])).2

/-- One iteration of `read_csv_titles`'s row loop from manga_compare.py:
skip empty rows, otherwise store column 0 (stripped) under its normalized
key, with column 1 (when present and non-empty after stripping) as the
single alternative title. -/
def csvStep (d : Catalog) (row : List Str) : Catalog :=
  match row with
  | [] => d
  | c0 :: rest =>
    let title := pyStrip c0
    let norm_title := normalize_title title
    let alts :=
      match rest with
      | [] => []
      | c1 :: _ => if pyStrip c1 ≠ [] then [pyStrip c1] else []
    dictInsert norm_title ⟨title, alts⟩ d

/-- `read_csv_titles` from manga_compare.py, over the parsed rows of the CSV
file (an empty file makes `next(csv_reader)` raise, which the source catches
and turns into an empty dict). -/
def read_csv_titles (rows : List (List Str)) : Catalog :=
  match rows with
  | [] => []
  | _header :: dataRows => dataRows.foldl csvStep []

/-- The normalized key a non-empty CSV row is stored under. -/
def csvRowKey (row : List Str) : Str :=
  match row with
  | [] => []
  | c0 :: _ => normalize_title (pyStrip c0)

/-- The entry a non-empty CSV row is stored as. -/
def csvRowEntry (row : List Str) : TitleEntry :=
  match row with
  | [] => ⟨[], []⟩
  | c0 :: rest =>
    ⟨pyStrip c0,
     match rest with
     | [] => []
     | c1 :: _ => if pyStrip c1 ≠ [] then [pyStrip c1] else []⟩

/-- The normalized key set of one catalog entry: the dict key plus the
normalization of every alternative title (`lib_title_set` / `csv_title_set`
in `find_matching_titles`). -/
def keysOf (p : Str × TitleEntry) : List Str :=
  p.1 :: p.2.alt_titles.map normalize_title

/-- Emptiness test of `lib_title_set & csv_title_set`. -/
def keysIntersect (a b : List Str) : Bool :=
  a.any (fun k => decide (k ∈ b))

/-- Add one `key ↦ original` pair to the `norm_to_lib` multimap. -/
def multiAdd (m : List (Str × List Str)) (k : Str) (v : Str) : List (Str × List Str) :=
  if m.any (fun p => decide (p.1 = k)) then
    m.map (fun p => if p.1 = k then (p.1, setInsert v p.2) else p)
  else m ++ [(k, [v])]

/-- The `norm_to_lib` mapping of `find_matching_titles`: every normalized
key of a library entry (main, then each alternative) maps to the set of
original titles of the entries answering to it. -/
def build_norm_to_lib (lib : Catalog) : List (Str × List Str) :=
  lib.foldl
    (fun m p =>
      p.2.alt_titles.foldl
        (fun m2 alt => multiAdd m2 (normalize_title alt) p.2.original)
        (multiAdd m p.1 p.2.original))
    []

def lookupMulti (m : List (Str × List Str)) (k : Str) : Option (List Str) :=
  (m.find? (fun p => decide (p.1 = k))).map Prod.snd

/-- One `match_info` record of `find_matching_titles`. -/
structure MatchInfo where
  library_title : Str
  library_alt_titles : List Str
  csv_title : Str
  csv_alt_titles : List Str
deriving DecidableEq, Repr

/-- Lexicographic order on strings by code point, Python's `<` on `str`. -/
def strLe : Str → Str → Bool
  | [], _ => true
  | _ :: _, [] => false
  | a :: as, b :: bs => if a = b then strLe as bs else decide (a < b)

/-- Stable insertion for sorting by a string key. -/
def insertByKey (key : α → Str) (x : α) : List α → List α
  | [] => [x]
  | y :: ys => if strLe (key x) (key y) = true then x :: y :: ys else y :: insertByKey key x ys

/-- Python `sorted(l, key=key)`: stable, ascending by the key. -/
def sortByKey (key : α → Str) (l : List α) : List α :=
  l.foldr (insertByKey key) []

/-- Python `sorted` on a list of strings. -/
def sortStrs (l : List Str) : List Str := sortByKey id l

/-- The body of the inner loop of lines 122-128 of `find_matching_titles`:
add one related original title to `all_lib_titles` and, when a library entry
carries it, merge that entry's alternative titles into
`all_lib_alt_titles`. -/
def collectOne (library_titles : Catalog) (st2 : List Str × List Str) (o : Str) :
    List Str × List Str :=
  let t2 := setInsert o st2.1
  match library_titles.find? (fun p => decide (p.2.original = o)) with
  | none => (t2, st2.2)
  | some rel => (t2, rel.2.alt_titles.foldl (fun a x => setInsert x a) st2.2)

/-- The accumulation over one key of `lib_title_set | csv_title_set` in
`find_matching_titles` (lines 120-128): the state is
`(all_lib_titles, all_lib_alt_titles)`. -/
def collectRelated (ntl : List (Str × List Str)) (library_titles : Catalog)
    (st : List Str × List Str) (k : Str) : List Str × List Str :=
  match lookupMulti ntl k with
  | none => st
  | some origs => origs.foldl (collectOne library_titles) st

/-- Construction of one `match_info` dict for a matching pair of entries. -/
def mkMatch (ntl : List (Str × List Str)) (library_titles : Catalog)
    (L c : Str × TitleEntry) : MatchInfo :=
  let keyUnion := setUnionStr (setOfList (keysOf L)) (keysOf c)
  let init : List Str × List Str :=
    ([L.2.original], L.2.alt_titles.foldl (fun a x => setInsert x a) [])
  let st := keyUnion.foldl (collectRelated ntl library_titles) init
  ⟨L.2.original,
   sortStrs (st.2.filter (fun a => decide (a ∉ st.1))),
   c.2.original,
   c.2.alt_titles⟩

/-- The inner loop of `find_matching_titles`: scan the CSV dict in order,
skip entries whose original title was already processed, and stop at the
first entry whose key set intersects the library entry's key set. -/
def firstAvail (ntl : List (Str × List Str)) (library_titles : Catalog)
    (L : Str × TitleEntry) (processed : List Str) :
    List (Str × TitleEntry) → Option MatchInfo
  | [] => none
  | c :: cs =>
    if c.2.original ∈ processed then firstAvail ntl library_titles L processed cs
    else if keysIntersect (keysOf L) (keysOf c) = true then
      some (mkMatch ntl library_titles L c)
    else firstAvail ntl library_titles L processed cs

/-- The outer loop of `find_matching_titles` over the library entries,
threading the `processed_matches` set. -/
def matchAux (ntl : List (Str × List Str)) (library_titles : Catalog)
    (csv_titles : Catalog) : List (Str × TitleEntry) → List Str → List MatchInfo
  | [], _ => []
  | L :: Ls, processed =>
    match firstAvail ntl library_titles L processed csv_titles with
    | some m => m :: matchAux ntl library_titles csv_titles Ls (setInsert m.csv_title processed)
    | none => matchAux ntl library_titles csv_titles Ls processed

/-- `find_matching_titles` from manga_compare.py. -/
def find_matching_titles (library_titles csv_titles : Catalog) : List MatchInfo :=
  matchAux (build_norm_to_lib library_titles) library_titles csv_titles library_titles []

/-- The original titles selected on the reference side by the matches of the
first `i` library entries: the contents of `processed_matches` when the
`i`-th library entry is examined. -/
def selectedBefore (library_titles csv_titles : Catalog) (i : Nat) : List Str :=
  (matchAux (build_norm_to_lib library_titles) library_titles csv_titles
    (library_titles.take i) []).map (fun m => m.csv_title)

/-- The reference record §4.3(c) of the spec says the Matcher must select
for a library entry `L`: iterate `L`'s keys, main title first then aliases
in list order, and within a key take the first reference record in catalog
order whose key set contains it.  Returns its original title. -/
def spec_first_selected (L : Str × TitleEntry) (csv_titles : Catalog) : Option Str :=
  (keysOf L).findSome? (fun k =>
    (csv_titles.find? (fun c => decide (k ∈ keysOf c))).map (fun c => c.2.original))

/-- Two-record library catalog whose records both alias `C`. -/
def libEx1 : Catalog :=
  [(("a").toList, ⟨("A").toList, [("C").toList]⟩),
   (("b").toList, ⟨("B").toList, [("C").toList]⟩)]

/-- One-record reference catalog with main title `C`. -/
def csvEx1 : Catalog := [(("c").toList, ⟨("C").toList, []⟩)]

/-- One-record library catalog: main `A`, alias `B`. -/
def libEx2 : Catalog := [(("a").toList, ⟨("A").toList, [("B").toList]⟩)]

/-- Two-record reference catalog: `B` first, then `A`. -/
def csvEx2 : Catalog :=
  [(("b").toList, ⟨("B").toList, []⟩), (("a").toList, ⟨("A").toList, []⟩)]

/-- One-record library catalog whose alias `C` is the next catalog's main
title. -/
def libEx3 : Catalog := [(("s").toList, ⟨("S").toList, [("C").toList]⟩)]

/-- One-record reference catalog with main title `C`. -/
def csvEx3 : Catalog := [(("c").toList, ⟨("C").toList, []⟩)]

/-- One-record library catalog, scenario A of §8 of the spec. -/
def libEx4 : Catalog := [(("naruto").toList, ⟨("Naruto").toList, []⟩)]

/-- One-record reference catalog, scenario A of §8 of the spec. -/
def csvEx4 : Catalog := [(("naruto").toList, ⟨("NARUTO").toList, []⟩)]

/-- `s.find`-style substring test: Python's `needle in s`. -/
def strContains (s pat : Str) : Bool :=
  (List.range (s.length + 1)).any (fun i => pat.isPrefixOf (s.drop i))

/-- `s.split(sep)` scanner with fuel, for nonempty `sep`. -/
def pySplitGo (sep : Str) : Nat → Str → Str → List Str
  | _, acc, [] => [acc.reverse]
  | 0, acc, s => [acc.reverse ++ s]
  | fuel + 1, acc, c :: rest =>
    if sep ≠ [] ∧ sep.isPrefixOf (c :: rest) then
      acc.reverse :: pySplitGo sep fuel [] ((c :: rest).drop sep.length)
    else pySplitGo sep fuel (c :: acc) rest

/-- Python `s.split(sep)` for nonempty `sep`. -/
def pySplit (s sep : Str) : List Str := pySplitGo sep s.length [] s

def altTitlesHeader : Str := ("Alternative Titles:").toList

def bulletStr : Str := ("•").toList

def eqSignStr : Str := ("=").toList

def mangaHashStr : Str := ("Manga #").toList

def newlineStr : Str := [Char.ofNat 10]

/-- The alias-recovery loop of `format_matching_titles` (lines 164-176 of
manga_compare.py) over the lines of one section: the state is
`(collecting_alts, alt_titles)`. -/
def collectSectionAlts (section_lines : List Str) : List Str :=
  (section_lines.foldl
    (fun (st : Bool × List Str) l =>
      let ls := pyStrip l
      if ls = altTitlesHeader then (true, st.2)
      else if st.1 ∧ bulletStr.isPrefixOf ls then
        let alt := pyStrip (pyReplace ls bulletStr [])
        (st.1, if alt ∈ st.2 then st.2 else st.2 ++ [alt])
      else if st.1 ∧ (ls = [] ∨ eqSignStr.isPrefixOf ls) then (false, st.2)
      else st)
    (false, [])).2

/-- The re-reading of `my_library.txt` done for each match by
`format_matching_titles`: split the file's content on `"Manga #"`, take the
first section containing the match's library title as a substring, and
parse alternative titles out of it.  `none` when no section contains the
title. -/
def extractLibAlts (content : Str) (title : Str) : Option (List Str) :=
  ((pySplit content mangaHashStr).find? (fun sec => strContains sec title)).map
    (fun sec => collectSectionAlts (pySplit sec newlineStr))

/-- Decimal rendering of a natural number. -/
def natStr (n : Nat) : Str := (Nat.repr n).toList

def matchesFoundHeader : Str := ("Matching Titles Found: ").toList

def eq80 : Str := List.replicate 80 '='

def dashes40 : Str := List.replicate 40 '-'

def nlMangaHashStr : Str := [Char.ofNat 10] ++ ("Manga #").toList

def fromYourLibraryStr : Str := ("From Your Library:").toList

def mainIndentStr : Str := ("  Main: ").toList

def altHeaderIndented : Str := ("  Alternative Titles:").toList

def bulletIndent : Str := ("    • ").toList

def fromCsvListStr : Str := [Char.ofNat 10] ++ ("From MangaDex Massacre List:").toList

/-- The per-match block of `format_matching_titles` (lines 148-198 of
manga_compare.py), as the list of strings appended to `lines`.  `content`
is the text of `my_library.txt` at formatting time, `none` when opening or
reading the file raises (the `except` branch, which falls back to the
in-memory `library_alt_titles`). -/
def renderBlock (content : Option Str) (i : Nat) (m : MatchInfo) : List Str :=
  [nlMangaHashStr ++ natStr i ++ [':'],
   dashes40,
   fromYourLibraryStr,
   mainIndentStr ++ m.library_title]
  ++ (match content with
      | some c =>
        match extractLibAlts c m.library_title with
        | some alt_titles =>
          if alt_titles ≠ [] then
            altHeaderIndented :: (sortStrs alt_titles).map (fun a => bulletIndent ++ a)
          else []
        | none => []
      | none =>
        if m.library_alt_titles ≠ [] then
          altHeaderIndented :: (sortStrs m.library_alt_titles).map (fun a => bulletIndent ++ a)
        else [])
  ++ [fromCsvListStr, mainIndentStr ++ m.csv_title]
  ++ (if m.csv_alt_titles ≠ [] then
        altHeaderIndented :: (sortStrs m.csv_alt_titles).map (fun a => bulletIndent ++ a)
      else [])
  ++ [dashes40]

/-- Render the blocks of the sorted matches, numbering from `i`. -/
def renderBlocksFrom (content : Option Str) : Nat → List MatchInfo → List Str
  | _, [] => []
  | i, m :: rest => renderBlock content i m ++ renderBlocksFrom content (i + 1) rest

/-- The `library_title.lower()` sort key of line 147 of manga_compare.py. -/
def matchSortKey (m : MatchInfo) : Str := pyLower m.library_title

/-- `format_matching_titles` from manga_compare.py, as the list of strings
joined into the report.  The matches are rendered in the order of
`sorted(matching_titles, key=lambda x: x['library_title'].lower())`. -/
def format_matching_titles (content : Option Str) (ms : List MatchInfo) : List Str :=
  (matchesFoundHeader ++ natStr ms.length) :: eq80 ::
    renderBlocksFrom content 1 (sortByKey matchSortKey ms)

/-- JSON values, for the structured export read by manga_parser.py. -/
inductive Json where
  | null : Json
  | bool : Bool → Json
  | num : Int → Json
  | str : Str → Json
  | arr : List Json → Json
  | obj : List (Str × Json) → Json

/-- Python `needle in j` for a JSON value: key test on dicts, element test
on lists, substring test on strings, `TypeError` otherwise. -/
def pyIn (needle : Str) : Json → Except Unit Bool
  | .obj fields => .ok (fields.any (fun p => decide (p.1 = needle)))
  | .arr l => .ok (l.any (fun v => match v with | .str s => decide (s = needle) | _ => false))
  | .str s => .ok (strContains s needle)
  | _ => .error ()

/-- Python `j[key]` for a string key: dict lookup, `TypeError`/`KeyError`
otherwise. -/
def pyIndex (j : Json) (key : Str) : Except Unit Json :=
  match j with
  | .obj fields =>
    match fields.find? (fun p => decide (p.1 = key)) with
    | some p => .ok p.2
    | none => .error ()
  | _ => .error ()

/-- Python `j.items()`: the field list of a dict, `AttributeError`
otherwise. -/
def pyItems (j : Json) : Except Unit (List (Str × Json)) :=
  match j with
  | .obj fields => .ok fields
  | _ => .error ()

/-- Python iteration `for x in j`: elements of a list, keys of a dict,
single-character strings of a string, `TypeError` otherwise. -/
def pyIter (j : Json) : Except Unit (List Json) :=
  match j with
  | .arr l => .ok l
  | .obj fields => .ok (fields.map (fun p => Json.str p.1))
  | .str s => .ok (s.map (fun c => Json.str [c]))
  | _ => .error ()

mutual

/-- Python `==` on JSON-decoded values: structural equality. -/
def jsonEq : Json → Json → Bool
  | .null, .null => true
  | .bool a, .bool b => a == b
  | .num a, .num b => a == b
  | .str a, .str b => a == b
  | .arr a, .arr b => jsonEqList a b
  | .obj a, .obj b => jsonEqFields a b
  | _, _ => false

def jsonEqList : List Json → List Json → Bool
  | [], [] => true
  | a :: as, b :: bs => jsonEq a b && jsonEqList as bs
  | _, _ => false

def jsonEqFields : List (Str × Json) → List (Str × Json) → Bool
  | [], [] => true
  | a :: as, b :: bs => (a.1 == b.1) && jsonEq a.2 b.2 && jsonEqFields as bs
  | _, _ => false

end

/-- Python truthiness of a JSON-decoded value. -/
def jsonTruthy : Json → Bool
  | .null => false
  | .bool b => b
  | .num n => !(n == 0)
  | .str s => !s.isEmpty
  | .arr l => !l.isEmpty
  | .obj f => !f.isEmpty

/-- One `manga_entry` dict of manga_parser.py. -/
structure MangaEntry where
  main_en : Option Json
  alt_titles : List Json

def attributesLit : Str := ("attributes").toList

def titleLit : Str := ("title").toList

def enLit : Str := ("en").toList

def altTitlesLit : Str := ("altTitles").toList

def dataLit : Str := ("data").toList

/-- `extract_manga_titles` from manga_parser.py.  An `Except.error` is a
Python exception escaping the function (caught by `parse_manga_file`'s
generic handler); `Except.ok none` is its `return None`. -/
def extract_manga_titles (manga_data : Json) : Except Unit (Option MangaEntry) := do
  let hasAttrs ← pyIn attributesLit manga_data
  let e ←
    if hasAttrs then do
      let attributes ← pyIndex manga_data attributesLit
      let hasTitle ← pyIn titleLit attributes
      let e1 ←
        if hasTitle then do
          let title_obj ← pyIndex attributes titleLit
          let hasEn ← pyIn enLit title_obj
          if hasEn then do
            let t ← pyIndex title_obj enLit
            pure (MangaEntry.mk (some t) [])
          else do
            let its ← pyItems title_obj
            match its with
            | [] => pure (MangaEntry.mk none [])
            | (_, t) :: _ => pure (MangaEntry.mk (some t) [])
        else pure (MangaEntry.mk none [])
      let hasAlt ← pyIn altTitlesLit attributes
      if hasAlt then do
        let altsJ ← pyIndex attributes altTitlesLit
        let altList ← pyIter altsJ
        let alts ← altList.foldlM
          (fun acc alt => do
            let its ← pyItems alt
            pure (its.foldl
              (fun acc2 p =>
                if acc2.any (fun x => jsonEq x p.2) then acc2 else acc2 ++ [p.2])
              acc))
          []
        pure (MangaEntry.mk e1.main_en alts)
      else pure e1
    else pure (MangaEntry.mk none [])
  if (match e.main_en with | none => false | some v => jsonTruthy v) || !e.alt_titles.isEmpty then
    pure (some e)
  else pure none

/-- The check of line 87 of manga_parser.py,
`"data" in json_data and isinstance(json_data["data"], list)`:
`ok (some l)` when it holds with array `l`, `ok none` when it fails,
`error` when the test itself raises. -/
def getDataList (j : Json) : Except Unit (Option (List Json)) := do
  let b ← pyIn dataLit j
  if b then do
    let v ← pyIndex j dataLit
    match v with
    | .arr l => pure (some l)
    | _ => pure none
  else pure none

/-- `parse_manga_file` from manga_parser.py.  The input is the outcome of
`json.load`: `none` when the file's content is not valid JSON (the
`JSONDecodeError` branch), `some j` for the parsed document.  Every raised
exception path of the source returns `[]`. -/
def parse_manga_file (doc : Option Json) : List MangaEntry :=
  match doc with
  | none => []
  | some j =>
    match getDataList j with
    | .error _ => []
    | .ok none => []
    | .ok (some l) =>
      match l.mapM extract_manga_titles with
      | .error _ => []
      | .ok opts => opts.filterMap id

theorem char_toNat_ofNat_valid (n : Nat) (h : n.isValidChar) : (Char.ofNat n).toNat = n := by
  simp [Char.ofNat, h, Char.ofNatAux, Char.toNat]
  rfl

theorem toLower_toLower (c : Char) : c.toLower.toLower = c.toLower := by
  by_cases h : c.toNat ≥ 65 ∧ c.toNat ≤ 90
  · have h1 : c.toLower = Char.ofNat (c.toNat + 32) := by simp [Char.toLower, h]
    have hval : (c.toNat + 32).isValidChar := Or.inl (by omega)
    have hv := char_toNat_ofNat_valid _ hval
    have hcond : ¬((Char.ofNat (c.toNat + 32)).toNat ≥ 65 ∧ (Char.ofNat (c.toNat + 32)).toNat ≤ 90) := by
      rw [hv]
      omega
    have h2 : (Char.ofNat (c.toNat + 32)).toLower = Char.ofNat (c.toNat + 32) := by
      simp [Char.toLower, hcond]
    rw [h1, h2]
  · have h1 : c.toLower = c := by simp [Char.toLower, h]
    rw [h1, h1]

theorem mem_pyLower_toLower {c : Char} {s : Str} (h : c ∈ pyLower s) : c.toLower = c := by
  unfold pyLower at h
  obtain ⟨a, _, rfl⟩ := List.mem_map.mp h
  exact toLower_toLower a

theorem mem_pyStrip {c : Char} {s : Str} (h : c ∈ pyStrip s) : c ∈ s := by
  unfold pyStrip pyStripLeft at h
  rw [List.mem_reverse] at h
  have h2 := List.dropWhile_subset _ h
  rw [List.mem_reverse] at h2
  exact List.dropWhile_subset _ h2

theorem mem_normalize_title {c : Char} {x : Str} (h : c ∈ normalize_title x) :
    c ∈ pyLower x := by
  unfold normalize_title at h
  have sub : ∀ n, c ∈ (pyStrip (pyLower x)).drop n → c ∈ pyLower x :=
    fun n hc => mem_pyStrip (List.drop_subset _ _ hc)
  dsimp only at h
  split at h
  · exact sub 4 h
  · split at h
    · exact sub 2 h
    · split at h
      · exact sub 3 h
      · exact mem_pyStrip h

theorem pyLower_eq_self {l : Str} (h : ∀ c ∈ l, c.toLower = c) : pyLower l = l := by
  unfold pyLower
  induction l with
  | nil => rfl
  | cons c cs ih =>
    simp only [List.map_cons]
    rw [h c (by simp), ih (fun d hd => h d (by simp [hd]))]

theorem pyLower_normalize (x : Str) : pyLower (normalize_title x) = normalize_title x :=
  pyLower_eq_self (fun _ hc => mem_pyLower_toLower (mem_normalize_title hc))

theorem normalize_of_no_article (y : Str)
    (hst : pyStrip (pyLower y) = y)
    (h2 : articleThe.isPrefixOf y = false)
    (h3 : articleA.isPrefixOf y = false)
    (h4 : articleAn.isPrefixOf y = false) :
    normalize_title y = y := by
  unfold normalize_title
  rw [hst]
  simp [h2, h3, h4]

/-- C4 counterexample: `normalize` is not idempotent.  On
`"The The Matrix"` one application yields `"the matrix"`, and a second
application strips the leading article again, yielding `"matrix"`. -/
theorem c4_claim_counterexample :
    normalize_title (normalize_title (("The The Matrix").toList)) ≠
      normalize_title (("The The Matrix").toList) := by decide

/-- C4 (amended): `normalize` is idempotent on every string whose normal
form is already stripped of surrounding whitespace and does not itself begin
with one of the articles `"the "`, `"a "`, `"an "`; in general a second
application can strip a further article or whitespace uncovered by the
first. -/
theorem c4_normalize_idem_amended (x : Str)
    (h1 : pyStrip (normalize_title x) = normalize_title x)
    (h2 : articleThe.isPrefixOf (normalize_title x) = false)
    (h3 : articleA.isPrefixOf (normalize_title x) = false)
    (h4 : articleAn.isPrefixOf (normalize_title x) = false) :
    normalize_title (normalize_title x) = normalize_title x := by
  apply normalize_of_no_article _ _ h2 h3 h4
  rw [pyLower_normalize, h1]

/-- Witness for C4 (amended) at the input `"Matrix"`. -/
theorem c4_normalize_idem_amended_witness :
    normalize_title (normalize_title (("Matrix").toList)) =
      normalize_title (("Matrix").toList) :=
  c4_normalize_idem_amended (("Matrix").toList) (by decide) (by decide) (by decide) (by decide)

theorem articleThe_length : articleThe.length = 4 := rfl

theorem articleA_length : articleA.length = 2 := rfl

theorem articleAn_length : articleAn.length = 3 := rfl

theorem normalize_eq_spec (x : Str) : normalize_title x = normalize_title_spec x := by
  unfold normalize_title normalize_title_spec specArticles
  cases h1 : articleThe.isPrefixOf (pyStrip (pyLower x)) <;>
    cases h2 : articleA.isPrefixOf (pyStrip (pyLower x)) <;>
      cases h3 : articleAn.isPrefixOf (pyStrip (pyLower x)) <;>
        simp [List.find?, h1, h2, h3, articleThe_length, articleA_length, articleAn_length]

/-- C5: a single application of `normalize_title` computes exactly what
§4.1 of the spec describes — trim, lower-case, strip the first matching
leading article of `"the "`, `"a "`, `"an "` (in that order) with its
trailing space, and nothing else; in particular
`normalize("The The Matrix") = "the matrix"` and
`normalize("Another Tale") = "another tale"`. -/
theorem c5_normalizer_matches_spec :
    (∀ x : Str, normalize_title x = normalize_title_spec x)
    ∧ normalize_title (("The The Matrix").toList) = ("the matrix").toList
    ∧ normalize_title (("Another Tale").toList) = ("another tale").toList :=
  ⟨normalize_eq_spec, by decide, by decide⟩

theorem strLe_refl (s : Str) : strLe s s = true := by
  induction s with
  | nil => rfl
  | cons c cs ih => simp [strLe, ih]

theorem strLe_total (a b : Str) : strLe a b = true ∨ strLe b a = true := by
  induction a generalizing b with
  | nil => left; rfl
  | cons x xs ih =>
    cases b with
    | nil => right; rfl
    | cons y ys =>
      by_cases hxy : x = y
      · subst hxy
        simp only [strLe, if_pos rfl]
        exact ih ys
      · rcases lt_trichotomy x y with h | h | h
        · left; simp [strLe, hxy, h]
        · exact absurd h hxy
        · right; simp [strLe, Ne.symm hxy, h]

theorem strLe_trans {a b c : Str} (h1 : strLe a b = true) (h2 : strLe b c = true) :
    strLe a c = true := by
  induction a generalizing b c with
  | nil => rfl
  | cons x xs ih =>
    cases b with
    | nil => simp [strLe] at h1
    | cons y ys =>
      cases c with
      | nil => simp [strLe] at h2
      | cons z zs =>
        by_cases hxy : x = y
        · subst hxy
          simp only [strLe, if_pos rfl] at h1
          by_cases hxz : x = z
          · subst hxz
            simp only [strLe, if_pos rfl] at h2 ⊢
            exact ih h1 h2
          · simp only [strLe, if_neg hxz] at h2 ⊢
            exact h2
        · simp only [strLe, if_neg hxy] at h1
          have hlt1 : x < y := of_decide_eq_true h1
          by_cases hyz : y = z
          · subst hyz
            simp [strLe, hxy, hlt1]
          · simp only [strLe, if_neg hyz] at h2
            have hlt2 : y < z := of_decide_eq_true h2
            have hlt : x < z := lt_trans hlt1 hlt2
            simp [strLe, ne_of_lt hlt, hlt]

theorem strLe_of_not_strLe {a b : Str} (h : ¬ strLe a b = true) : strLe b a = true :=
  (strLe_total a b).resolve_left h

theorem key_ne_of_not_strLe {key : α → Str} {x y : α}
    (h : ¬ strLe (key x) (key y) = true) : key x ≠ key y := by
  intro he
  rw [he] at h
  exact h (strLe_refl _)

theorem mem_insertByKey {key : α → Str} {x z : α} {l : List α} :
    z ∈ insertByKey key x l ↔ z = x ∨ z ∈ l := by
  induction l with
  | nil => simp [insertByKey]
  | cons y ys ih =>
    unfold insertByKey
    split
    · simp
    · simp only [List.mem_cons, ih]
      tauto

theorem insertByKey_perm (key : α → Str) (x : α) (l : List α) :
    (insertByKey key x l).Perm (x :: l) := by
  induction l with
  | nil => exact List.Perm.refl _
  | cons y ys ih =>
    unfold insertByKey
    split
    · exact List.Perm.refl _
    · exact (ih.cons y).trans (List.Perm.swap x y ys)

theorem sortByKey_perm (key : α → Str) (l : List α) : (sortByKey key l).Perm l := by
  induction l with
  | nil => exact List.Perm.refl _
  | cons x xs ih => exact (insertByKey_perm key x (sortByKey key xs)).trans (ih.cons x)

theorem pairwise_insertByKey (key : α → Str) (x : α) {l : List α}
    (h : List.Pairwise (fun a b => strLe (key a) (key b) = true) l) :
    List.Pairwise (fun a b => strLe (key a) (key b) = true) (insertByKey key x l) := by
  induction l with
  | nil => simp [insertByKey]
  | cons y ys ih =>
    rw [List.pairwise_cons] at h
    obtain ⟨hy, hys⟩ := h
    unfold insertByKey
    split
    · next hle =>
      rw [List.pairwise_cons]
      refine ⟨?_, List.pairwise_cons.mpr ⟨hy, hys⟩⟩
      intro z hz
      rcases List.mem_cons.mp hz with rfl | hz2
      · exact hle
      · exact strLe_trans hle (hy z hz2)
    · next hle =>
      rw [List.pairwise_cons]
      refine ⟨?_, ih hys⟩
      intro z hz
      rcases mem_insertByKey.mp hz with rfl | hz2
      · exact strLe_of_not_strLe hle
      · exact hy z hz2

theorem sortByKey_pairwise (key : α → Str) (l : List α) :
    List.Pairwise (fun a b => strLe (key a) (key b) = true) (sortByKey key l) := by
  induction l with
  | nil => simp [sortByKey]
  | cons x xs ih => exact pairwise_insertByKey key x ih

theorem filter_insertByKey (key : α → Str) (x : α) (l : List α) (k : Str) :
    (insertByKey key x l).filter (fun z => decide (key z = k)) =
      if key x = k then x :: l.filter (fun z => decide (key z = k))
      else l.filter (fun z => decide (key z = k)) := by
  induction l with
  | nil =>
    by_cases hxk : key x = k <;> simp [insertByKey, List.filter, hxk]
  | cons y ys ih =>
    unfold insertByKey
    split
    · by_cases hxk : key x = k <;> simp [List.filter_cons, hxk]
    · next hle =>
      have hne : key x ≠ key y := key_ne_of_not_strLe hle
      by_cases hxk : key x = k <;> by_cases hyk : key y = k
      · exact absurd (hxk.trans hyk.symm) hne
      · simp [List.filter_cons, hxk, hyk, ih]
      · simp [List.filter_cons, hxk, hyk, ih]
      · simp [List.filter_cons, hxk, hyk, ih]

theorem sortByKey_filter (key : α → Str) (l : List α) (k : Str) :
    (sortByKey key l).filter (fun z => decide (key z = k)) =
      l.filter (fun z => decide (key z = k)) := by
  induction l with
  | nil => rfl
  | cons x xs ih =>
    show (insertByKey key x (sortByKey key xs)).filter _ = _
    rw [filter_insertByKey]
    by_cases hxk : key x = k <;> simp [List.filter_cons, hxk, ih]

theorem mem_sortByKey {key : α → Str} {x : α} {l : List α} :
    x ∈ sortByKey key l ↔ x ∈ l :=
  (sortByKey_perm key l).mem_iff

theorem nodup_sortByKey {key : α → Str} {l : List α} (h : l.Nodup) :
    (sortByKey key l).Nodup :=
  (sortByKey_perm key l).nodup_iff.mpr h

/-- C6: the report renders the matches in the order of the stable sort of
the match list by `library_title.lower()` — ascending case-insensitively,
with ties (equal lowered titles) kept in original discovery order. -/
theorem c6_report_order (content : Option Str) (ms : List MatchInfo) :
    format_matching_titles content ms =
      (matchesFoundHeader ++ natStr ms.length) :: eq80 ::
        renderBlocksFrom content 1 (sortByKey matchSortKey ms)
    ∧ (sortByKey matchSortKey ms).Perm ms
    ∧ List.Pairwise
        (fun a b => strLe (pyLower a.library_title) (pyLower b.library_title) = true)
        (sortByKey matchSortKey ms)
    ∧ ∀ k : Str,
        (sortByKey matchSortKey ms).filter (fun m => decide (pyLower m.library_title = k)) =
          ms.filter (fun m => decide (pyLower m.library_title = k)) :=
  ⟨rfl, sortByKey_perm matchSortKey ms, sortByKey_pairwise matchSortKey ms,
    sortByKey_filter matchSortKey ms⟩

/-- C9 counterexample: the rendered per-match blocks do depend on the
content of `my_library.txt` at formatting time.  With the same single-match
list, an empty library file and a library file whose section lists the
alias `X` under `Alternative Titles:` render different reports. -/
theorem c9_claim_counterexample :
    format_matching_titles (some []) [⟨("A").toList, [], ("B").toList, []⟩] ≠
      format_matching_titles
        (some (("A").toList ++ newlineStr ++ ("Alternative Titles:").toList ++
          newlineStr ++ ("• X").toList))
        [⟨("A").toList, [], ("B").toList, []⟩] := by decide

theorem renderBlocksFrom_congr (c c' : Str) (L : List MatchInfo)
    (h : ∀ m ∈ L, extractLibAlts c m.library_title = extractLibAlts c' m.library_title) :
    ∀ i, renderBlocksFrom (some c) i L = renderBlocksFrom (some c') i L := by
  induction L with
  | nil => intro i; rfl
  | cons m rest ih =>
    intro i
    unfold renderBlocksFrom
    rw [ih (fun m2 hm2 => h m2 (List.mem_cons_of_mem _ hm2)) (i + 1)]
    have hm := h m (List.mem_cons_self _ _)
    unfold renderBlock
    dsimp only
    rw [hm]

/-- C9 (amended): the formatter re-reads the persisted library file and its
per-match blocks depend on that file's content, but only through the alias
list `extractLibAlts` recovers from the first `"Manga #"` section containing
each match's library title: two file contents yielding the same extracted
alias lists for every match render identical reports. -/
theorem c9_format_amended (c c' : Str) (ms : List MatchInfo)
    (h : ∀ m ∈ ms, extractLibAlts c m.library_title = extractLibAlts c' m.library_title) :
    format_matching_titles (some c) ms = format_matching_titles (some c') ms := by
  unfold format_matching_titles
  rw [renderBlocksFrom_congr c c' (sortByKey matchSortKey ms)
    (fun m hm => h m (mem_sortByKey.mp hm)) 1]

/-- Witness for C9 (amended): two distinct library files in which no
section contains the match's library title. -/
theorem c9_format_amended_witness :
    format_matching_titles (some (("x").toList)) [⟨("A").toList, [], ("B").toList, []⟩] =
      format_matching_titles (some (("y").toList)) [⟨("A").toList, [], ("B").toList, []⟩] :=
  c9_format_amended (("x").toList) (("y").toList) _ (by decide)

theorem reverse_dropWhile_prefix (p : Char → Bool) (u : Str) :
    (u.reverse.dropWhile p).reverse <+: u := by
  have h2 := (List.dropWhile_suffix (l := u.reverse) p).reverse
  rwa [List.reverse_reverse] at h2

theorem pyStrip_head_not_ws {s : Str} {c : Char} {rest : Str} (h : pyStrip s = c :: rest) :
    c.isWhitespace = false := by
  have hpre : pyStrip s <+: pyStripLeft s := reverse_dropWhile_prefix _ _
  obtain ⟨t, ht⟩ := hpre
  have hu : pyStripLeft s = c :: (rest ++ t) := by
    rw [← ht, h, List.cons_append]
  have hw := List.head?_dropWhile_not Char.isWhitespace s
  rw [show s.dropWhile Char.isWhitespace = pyStripLeft s from rfl, hu] at hw
  simpa using hw

theorem bullet_not_prefix_pyStrip (s : Str) :
    libBulletMarker.isPrefixOf (pyStrip s) = false := by
  cases h : pyStrip s with
  | nil => decide
  | cons c rest =>
    have hc := pyStrip_head_not_ws h
    have hne : (' ' == c) = false := by
      cases hsp : (' ' == c)
      · rfl
      · have : ' ' = c := eq_of_beq hsp
        rw [← this] at hc
        exact absurd hc (by decide)
    show List.isPrefixOf libBulletMarker (c :: rest) = false
    have hlb : libBulletMarker = ' ' :: [' ', '•', ' '] := rfl
    rw [hlb]
    simp [List.isPrefixOf, hne]

theorem dictInsert_allEmpty {d : Catalog} {k : Str} {v : TitleEntry}
    (hd : ∀ p ∈ d, p.2.alt_titles = []) (hv : v.alt_titles = []) :
    ∀ p ∈ dictInsert k v d, p.2.alt_titles = [] := by
  unfold dictInsert
  split
  · intro p hp
    obtain ⟨q, hq, rfl⟩ := List.mem_map.mp hp
    by_cases hqk : q.1 = k
    · simp only [if_pos hqk]
      exact hv
    · simp only [if_neg hqk]
      exact hd q hq
  · intro p hp
    rcases List.mem_append.mp hp with h1 | h1
    · exact hd p h1
    · rw [List.mem_singleton.mp h1]
      exact hv

theorem libStep_allEmpty {st : Option Str × Catalog} {rawLine : Str}
    (hd : ∀ p ∈ st.2, p.2.alt_titles = []) :
    ∀ p ∈ (libStep st rawLine).2, p.2.alt_titles = [] := by
  unfold libStep
  dsimp only
  split
  · exact dictInsert_allEmpty hd rfl
  · split
    · next hcond2 => exact absurd hcond2.1 (by simp [bullet_not_prefix_pyStrip])
    · exact hd

theorem foldl_libStep_allEmpty (fileLines : List Str) :
    ∀ st : Option Str × Catalog, (∀ p ∈ st.2, p.2.alt_titles = []) →
      ∀ p ∈ (fileLines.foldl libStep st).2, p.2.alt_titles = [] := by
  induction fileLines with
  | nil => exact fun st hst => hst
  | cons l ls ih =>
    intro st hst
    exact ih (libStep st l) (libStep_allEmpty hst)

/-- C10: the claim describes the intended alias handling of
`read_library_titles` (a bullet line attaches an alias and also creates its
own top-level record), but the source strips each line before testing the
two-space bullet prefix `'  • '`, so the bullet branch can never run: on a
library file with a main title followed by a bullet alias, the loader
returns one record with no aliases and no record for the alias, and in fact
no run of the loader ever produces a non-empty alias list. -/
theorem c10_dead_bullet_branch :
    read_library_titles
        [("Main Title: Shingeki no Kyojin").toList, ("  • Attack on Titan").toList] =
      [(("shingeki no kyojin").toList, ⟨("Shingeki no Kyojin").toList, []⟩)]
    ∧ ∀ fileLines : List Str,
        (read_library_titles fileLines).all (fun p => p.2.alt_titles.isEmpty) = true := by
  constructor
  · decide
  · intro fileLines
    rw [List.all_eq_true]
    intro p hp
    have := foldl_libStep_allEmpty fileLines (none, []) (by intro q hq; cases hq) p hp
    simp [this]

theorem any_key_iff (d : Catalog) (k : Str) :
    d.any (fun p => decide (p.1 = k)) = true ↔ k ∈ d.map Prod.fst := by
  rw [List.any_eq_true]
  constructor
  · rintro ⟨p, hp, hk⟩
    exact List.mem_map.mpr ⟨p, hp, of_decide_eq_true hk⟩
  · intro hk
    obtain ⟨p, hp, hpk⟩ := List.mem_map.mp hk
    exact ⟨p, hp, decide_eq_true hpk⟩

theorem keys_dictInsert (k : Str) (v : TitleEntry) (d : Catalog) :
    (dictInsert k v d).map Prod.fst = setInsert k (d.map Prod.fst) := by
  unfold dictInsert setInsert
  by_cases hmem : k ∈ d.map Prod.fst
  · rw [if_pos ((any_key_iff d k).mpr hmem), if_pos hmem, List.map_map]
    apply List.map_congr_left
    intro p _
    by_cases hpk : p.1 = k <;> simp [hpk]
  · rw [if_neg (fun hc => hmem ((any_key_iff d k).mp hc)), if_neg hmem, List.map_append]
    rfl

theorem lookupCat_dictInsert_self (k : Str) (v : TitleEntry) (d : Catalog) :
    lookupCat (dictInsert k v d) k = some v := by
  unfold dictInsert lookupCat
  by_cases hmem : d.any (fun p => decide (p.1 = k)) = true
  · rw [if_pos hmem, List.find?_map]
    have hcomp :
        ((fun p : Str × TitleEntry => decide (p.1 = k)) ∘ fun p => if p.1 = k then (k, v) else p) =
          fun p : Str × TitleEntry => decide (p.1 = k) := by
      funext p
      by_cases hpk : p.1 = k <;> simp [hpk]
    rw [hcomp]
    obtain ⟨p0, hp0mem, hp0⟩ := List.any_eq_true.mp hmem
    cases hfind : d.find? (fun p => decide (p.1 = k)) with
    | none =>
      rw [List.find?_eq_none] at hfind
      exact absurd hp0 (hfind p0 hp0mem)
    | some q =>
      have hq := @List.find?_some (Str × TitleEntry) (fun p => decide (p.1 = k)) q d hfind
      have hqk : q.1 = k := of_decide_eq_true hq
      simp [hqk]
  · rw [if_neg hmem, List.find?_append]
    have hnone : d.find? (fun p => decide (p.1 = k)) = none := by
      rw [List.find?_eq_none]
      intro x hx hpx
      exact hmem (List.any_eq_true.mpr ⟨x, hx, hpx⟩)
    rw [hnone]
    simp [List.find?]

theorem lookupCat_dictInsert_ne (k : Str) (v : TitleEntry) (d : Catalog) (k' : Str)
    (h : k' ≠ k) : lookupCat (dictInsert k v d) k' = lookupCat d k' := by
  unfold dictInsert lookupCat
  by_cases hmem : d.any (fun p => decide (p.1 = k)) = true
  · rw [if_pos hmem, List.find?_map]
    have hcomp :
        ((fun p : Str × TitleEntry => decide (p.1 = k')) ∘ fun p => if p.1 = k then (k, v) else p) =
          fun p : Str × TitleEntry => decide (p.1 = k') := by
      funext p
      by_cases hpk : p.1 = k <;> simp [hpk]
    rw [hcomp]
    cases hfind : d.find? (fun p => decide (p.1 = k')) with
    | none => simp
    | some q =>
      have hq := @List.find?_some (Str × TitleEntry) (fun p => decide (p.1 = k')) q d hfind
      have hqk : q.1 = k' := of_decide_eq_true hq
      have hfq : (if q.1 = k then (k, v) else q) = q := by
        rw [if_neg (fun hc => h (hqk ▸ hc))]
      simp [hfq]
  · rw [if_neg hmem, List.find?_append]
    have hcase : List.find? (fun p => decide (p.1 = k')) [(k, v)] = none := by
      simp [List.find?, Ne.symm h]
    cases hfind : d.find? (fun p => decide (p.1 = k')) with
    | none => simp [hfind, hcase]
    | some q => simp [hfind]

theorem nodup_setInsert {x : Str} {l : List Str} (h : l.Nodup) : (setInsert x l).Nodup := by
  unfold setInsert
  split
  · exact h
  · next hx => simp [List.nodup_append, h, hx]

theorem nodup_foldl_setInsert {β : Type} (g : β → Str) (rs : List β) :
    ∀ acc : List Str, acc.Nodup → (rs.foldl (fun a r => setInsert (g r) a) acc).Nodup := by
  induction rs with
  | nil => exact fun _ h => h
  | cons r rs ih => exact fun acc h => ih _ (nodup_setInsert h)

theorem csv_foldl_keys_lookup (rows : List (List Str)) :
    ∀ d : Catalog,
      ((rows.foldl csvStep d).map Prod.fst =
        (rows.filter (fun r => !r.isEmpty)).foldl
          (fun acc r => setInsert (csvRowKey r) acc) (d.map Prod.fst))
      ∧ ∀ k : Str,
          lookupCat (rows.foldl csvStep d) k =
            match (rows.filter (fun r => !r.isEmpty && decide (csvRowKey r = k))).getLast? with
            | some r => some (csvRowEntry r)
            | none => lookupCat d k := by
  induction rows with
  | nil => exact fun d => ⟨rfl, fun _ => rfl⟩
  | cons r rs ih =>
    intro d
    cases r with
    | nil =>
      constructor
      · rw [List.foldl_cons, show csvStep d [] = d from rfl, List.filter_cons]
        simp only [List.isEmpty_nil, Bool.not_true, Bool.false_eq_true, if_false]
        exact (ih d).1
      · intro k
        rw [List.foldl_cons, show csvStep d [] = d from rfl, List.filter_cons]
        simp only [List.isEmpty_nil, Bool.not_true, Bool.false_and, Bool.false_eq_true, if_false]
        exact (ih d).2 k
    | cons c0 rest =>
      have hstep :
          csvStep d (c0 :: rest) =
            dictInsert (csvRowKey (c0 :: rest)) (csvRowEntry (c0 :: rest)) d := rfl
      constructor
      · rw [List.foldl_cons, hstep, (ih _).1, keys_dictInsert, List.filter_cons]
        simp only [List.isEmpty_cons, Bool.not_false, if_true, List.foldl_cons]
      · intro k
        rw [List.foldl_cons, hstep, (ih _).2 k]
        by_cases hk : csvRowKey (c0 :: rest) = k
        · have hcond : (!(c0 :: rest).isEmpty && decide (csvRowKey (c0 :: rest) = k)) = true := by
            simp [hk]
          simp only [List.filter_cons, hcond, if_true]
          cases hF : rs.filter (fun r => !r.isEmpty && decide (csvRowKey r = k)) with
          | nil =>
            simp only [List.getLast?_nil, List.getLast?_singleton]
            rw [hk]
            exact lookupCat_dictInsert_self k (csvRowEntry (c0 :: rest)) d
          | cons f fs =>
            simp only [List.getLast?_cons_cons]
            cases hg : (f :: fs).getLast? with
            | none => simp at hg
            | some x => rfl
        · have hcond : (!(c0 :: rest).isEmpty && decide (csvRowKey (c0 :: rest) = k)) = false := by
            simp [hk]
          simp only [List.filter_cons, hcond, Bool.false_eq_true, if_false]
          cases hF : rs.filter (fun r => !r.isEmpty && decide (csvRowKey r = k)) with
          | nil =>
            simp only [List.getLast?_nil]
            exact lookupCat_dictInsert_ne _ _ d k (fun hc => hk hc.symm)
          | cons f fs => rfl

/-- C7 counterexample: the reference-side loader does not yield one record
per data row when two rows normalize to the same key — the later row
overwrites the earlier record in place, so two data rows yield one record. -/
theorem c7_claim_counterexample :
    read_csv_titles [[("Title").toList], [("The Matrix").toList], [("Matrix").toList]] =
      [(("matrix").toList, ⟨("Matrix").toList, []⟩)]
    ∧ (read_csv_titles
        [[("Title").toList], [("The Matrix").toList], [("Matrix").toList]]).length ≠ 2 := by
  constructor
  · decide
  · decide

/-- C7 (amended): with a header row, the reference-side loader yields one
record per distinct normalized key among the non-empty data rows, keys in
first-occurrence row order and with no duplicate keys; the record stored
under a key is the one built from the last data row with that key (a later
colliding row replaces the earlier record in place), holding column 0
stripped as main title and column 1 — when present and non-empty after
stripping — as the single alias; empty rows are skipped. -/
theorem c7_csv_loader_amended (header : List Str) (dataRows : List (List Str)) :
    (read_csv_titles (header :: dataRows)).map Prod.fst =
        (dataRows.filter (fun r => !r.isEmpty)).foldl
          (fun acc r => setInsert (csvRowKey r) acc) []
    ∧ ((read_csv_titles (header :: dataRows)).map Prod.fst).Nodup
    ∧ ∀ k : Str,
        lookupCat (read_csv_titles (header :: dataRows)) k =
          match (dataRows.filter (fun r => !r.isEmpty && decide (csvRowKey r = k))).getLast? with
          | some r => some (csvRowEntry r)
          | none => none := by
  have hr : read_csv_titles (header :: dataRows) = dataRows.foldl csvStep [] := rfl
  have hspec := csv_foldl_keys_lookup dataRows []
  rw [hr]
  refine ⟨hspec.1, ?_, ?_⟩
  · rw [hspec.1]
    exact nodup_foldl_setInsert csvRowKey _ (List.map Prod.fst []) List.nodup_nil
  · intro k
    rw [hspec.2 k]
    cases (dataRows.filter (fun r => !r.isEmpty && decide (csvRowKey r = k))).getLast? with
    | none => rfl
    | some r => rfl

/-- C8: when the structured export is not valid JSON, or parses to a
document without a top-level `data` array, `parse_manga_file` returns the
empty record set (after reporting) instead of raising, and never a partial
one. -/
theorem c8_parse_error_handling :
    parse_manga_file none = []
    ∧ ∀ j : Json, (∀ l : List Json, getDataList j ≠ Except.ok (some l)) →
        parse_manga_file (some j) = [] := by
  refine ⟨rfl, ?_⟩
  intro j h
  cases hg : getDataList j with
  | error e => simp [parse_manga_file, hg]
  | ok o =>
    cases o with
    | none => simp [parse_manga_file, hg]
    | some l => exact absurd hg (h l)

/-- Witness for C8 at a JSON object with no `data` member. -/
theorem c8_parse_error_handling_witness : parse_manga_file (some (Json.obj [])) = [] :=
  c8_parse_error_handling.2 (Json.obj [])
    (fun l h => by
      rw [show getDataList (Json.obj []) = Except.ok none from rfl] at h
      exact Option.noConfusion (Except.ok.inj h))

theorem mem_setInsert {x y : Str} {l : List Str} :
    y ∈ setInsert x l ↔ y = x ∨ y ∈ l := by
  unfold setInsert
  split
  · next hx =>
    constructor
    · exact Or.inr
    · rintro (rfl | h)
      · exact hx
      · exact h
  · simp [List.mem_append, or_comm]

theorem mkMatch_library_title (ntl : List (Str × List Str)) (lib : Catalog)
    (L c : Str × TitleEntry) : (mkMatch ntl lib L c).library_title = L.2.original := rfl

theorem mkMatch_csv_title (ntl : List (Str × List Str)) (lib : Catalog)
    (L c : Str × TitleEntry) : (mkMatch ntl lib L c).csv_title = c.2.original := rfl

theorem mkMatch_csv_alt (ntl : List (Str × List Str)) (lib : Catalog)
    (L c : Str × TitleEntry) : (mkMatch ntl lib L c).csv_alt_titles = c.2.alt_titles := rfl

theorem firstAvail_eq_none_iff (ntl : List (Str × List Str)) (lib : Catalog)
    (L : Str × TitleEntry) (p : List Str) (cs : List (Str × TitleEntry)) :
    firstAvail ntl lib L p cs = none ↔
      ∀ c ∈ cs, c.2.original ∈ p ∨ keysIntersect (keysOf L) (keysOf c) = false := by
  induction cs with
  | nil => simp [firstAvail]
  | cons c cs ih =>
    unfold firstAvail
    by_cases h1 : c.2.original ∈ p
    · rw [if_pos h1, ih]
      constructor
      · intro hall x hx
        rcases List.mem_cons.mp hx with rfl | hx2
        · exact Or.inl h1
        · exact hall x hx2
      · intro hall x hx
        exact hall x (List.mem_cons_of_mem _ hx)
    · rw [if_neg h1]
      by_cases h2 : keysIntersect (keysOf L) (keysOf c) = true
      · rw [if_pos h2]
        constructor
        · intro habs
          exact absurd habs (by simp)
        · intro hall
          rcases hall c (List.mem_cons_self _ _) with hc | hc
          · exact absurd hc h1
          · rw [h2] at hc
            exact absurd hc (by simp)
      · have h2f : keysIntersect (keysOf L) (keysOf c) = false := by
          cases hx : keysIntersect (keysOf L) (keysOf c)
          · rfl
          · exact absurd hx h2
        rw [if_neg h2, ih]
        constructor
        · intro hall x hx
          rcases List.mem_cons.mp hx with rfl | hx2
          · exact Or.inr h2f
          · exact hall x hx2
        · intro hall x hx
          exact hall x (List.mem_cons_of_mem _ hx)

theorem firstAvail_some_spec (ntl : List (Str × List Str)) (lib : Catalog)
    (L : Str × TitleEntry) (p : List Str) :
    ∀ (cs : List (Str × TitleEntry)) (m : MatchInfo),
      firstAvail ntl lib L p cs = some m →
      ∃ j, ∃ hj : j < cs.length,
        m = mkMatch ntl lib L (cs.get ⟨j, hj⟩)
        ∧ (cs.get ⟨j, hj⟩).2.original ∉ p
        ∧ keysIntersect (keysOf L) (keysOf (cs.get ⟨j, hj⟩)) = true
        ∧ ∀ j' (hj' : j' < j),
            (cs.get ⟨j', Nat.lt_trans hj' hj⟩).2.original ∈ p ∨
              keysIntersect (keysOf L) (keysOf (cs.get ⟨j', Nat.lt_trans hj' hj⟩)) = false := by
  intro cs
  induction cs with
  | nil => intro m hm; simp [firstAvail] at hm
  | cons c cs ih =>
    intro m hm
    unfold firstAvail at hm
    by_cases h1 : c.2.original ∈ p
    · rw [if_pos h1] at hm
      obtain ⟨j, hj, hmeq, hp2, hint, hmin⟩ := ih m hm
      refine ⟨j + 1, Nat.succ_lt_succ hj, hmeq, hp2, hint, ?_⟩
      intro j' hj'
      cases j' with
      | zero => exact Or.inl h1
      | succ j'' => exact hmin j'' (Nat.lt_of_succ_lt_succ hj')
    · rw [if_neg h1] at hm
      by_cases h2 : keysIntersect (keysOf L) (keysOf c) = true
      · rw [if_pos h2] at hm
        refine ⟨0, Nat.succ_pos _, (Option.some.inj hm).symm, h1, h2, ?_⟩
        intro j' hj'
        exact absurd hj' (Nat.not_lt_zero _)
      · rw [if_neg h2] at hm
        obtain ⟨j, hj, hmeq, hp2, hint, hmin⟩ := ih m hm
        refine ⟨j + 1, Nat.succ_lt_succ hj, hmeq, hp2, hint, ?_⟩
        intro j' hj'
        cases j' with
        | zero =>
          refine Or.inr ?_
          cases hx : keysIntersect (keysOf L) (keysOf c)
          · exact hx
          · exact absurd hx h2
        | succ j'' => exact hmin j'' (Nat.lt_of_succ_lt_succ hj')

theorem matchAux_lib_mem (ntl : List (Str × List Str)) (lib csv : Catalog) :
    ∀ (Ls : List (Str × TitleEntry)) (p : List Str) (m : MatchInfo),
      m ∈ matchAux ntl lib csv Ls p →
      m.library_title ∈ Ls.map (fun q => q.2.original) := by
  intro Ls
  induction Ls with
  | nil => intro p m hm; simp [matchAux] at hm
  | cons L Ls ih =>
    intro p m hm
    unfold matchAux at hm
    rw [List.map_cons]
    cases hfa : firstAvail ntl lib L p csv with
    | some m0 =>
      rw [hfa] at hm
      rcases List.mem_cons.mp hm with rfl | hm2
      · obtain ⟨j, hj, hmeq, _, _, _⟩ := firstAvail_some_spec ntl lib L p csv m hfa
        have : m.library_title = L.2.original := by rw [hmeq]; rfl
        rw [this]
        exact List.mem_cons_self _ _
      · exact List.mem_cons_of_mem _ (ih _ m hm2)
    | none =>
      rw [hfa] at hm
      exact List.mem_cons_of_mem _ (ih _ m hm)

theorem matchAux_csv_not_processed (ntl : List (Str × List Str)) (lib csv : Catalog) :
    ∀ (Ls : List (Str × TitleEntry)) (p : List Str) (m : MatchInfo),
      m ∈ matchAux ntl lib csv Ls p → m.csv_title ∉ p := by
  intro Ls
  induction Ls with
  | nil => intro p m hm; simp [matchAux] at hm
  | cons L Ls ih =>
    intro p m hm
    unfold matchAux at hm
    cases hfa : firstAvail ntl lib L p csv with
    | some m0 =>
      rw [hfa] at hm
      rcases List.mem_cons.mp hm with rfl | hm2
      · obtain ⟨j, hj, hmeq, hp2, _, _⟩ := firstAvail_some_spec ntl lib L p csv m hfa
        have : m.csv_title = (csv.get ⟨j, hj⟩).2.original := by rw [hmeq]; rfl
        rw [this]
        exact hp2
      · intro hmem
        exact ih _ m hm2 (mem_setInsert.mpr (Or.inr hmem))
    | none =>
      rw [hfa] at hm
      exact ih _ m hm

theorem matchAux_countP_lib_zero (ntl : List (Str × List Str)) (lib csv : Catalog)
    (o : Str) (Ls : List (Str × TitleEntry)) (p : List Str)
    (ho : o ∉ Ls.map (fun q => q.2.original)) :
    (matchAux ntl lib csv Ls p).countP (fun m => decide (m.library_title = o)) = 0 := by
  rw [List.countP_eq_zero]
  intro m hm
  simp only [decide_eq_true_eq]
  intro heq
  exact ho (heq ▸ matchAux_lib_mem ntl lib csv Ls p m hm)

theorem matchAux_countP_csv_zero (ntl : List (Str × List Str)) (lib csv : Catalog)
    (t : Str) (Ls : List (Str × TitleEntry)) (p : List Str) (ht : t ∈ p) :
    (matchAux ntl lib csv Ls p).countP (fun m => decide (m.csv_title = t)) = 0 := by
  rw [List.countP_eq_zero]
  intro m hm
  simp only [decide_eq_true_eq]
  intro heq
  exact matchAux_csv_not_processed ntl lib csv Ls p m hm (heq ▸ ht)

theorem matchAux_countP_csv_le_one (ntl : List (Str × List Str)) (lib csv : Catalog)
    (t : Str) : ∀ (Ls : List (Str × TitleEntry)) (p : List Str),
      (matchAux ntl lib csv Ls p).countP (fun m => decide (m.csv_title = t)) ≤ 1 := by
  intro Ls
  induction Ls with
  | nil => intro p; simp [matchAux]
  | cons L Ls ih =>
    intro p
    unfold matchAux
    cases hfa : firstAvail ntl lib L p csv with
    | none => exact ih p
    | some m0 =>
      rw [List.countP_cons]
      by_cases hmt : m0.csv_title = t
      · have hzero : (matchAux ntl lib csv Ls (setInsert m0.csv_title p)).countP
            (fun m => decide (m.csv_title = t)) = 0 :=
          matchAux_countP_csv_zero ntl lib csv t Ls _ (mem_setInsert.mpr (Or.inl hmt.symm))
        rw [hzero]
        simp [hmt]
      · have hle := ih (setInsert m0.csv_title p)
        simp only [hmt, decide_eq_true_eq, if_neg hmt]
        simpa using hle

theorem firstAvail_congr (ntl : List (Str × List Str)) (lib : Catalog)
    (L : Str × TitleEntry) {p q : List Str} (hpq : ∀ t, t ∈ p ↔ t ∈ q) :
    ∀ cs, firstAvail ntl lib L p cs = firstAvail ntl lib L q cs := by
  intro cs
  induction cs with
  | nil => rfl
  | cons c cs ih =>
    unfold firstAvail
    by_cases h1 : c.2.original ∈ p
    · rw [if_pos h1, if_pos ((hpq _).mp h1), ih]
    · rw [if_neg h1, if_neg (fun hc => h1 ((hpq _).mpr hc))]
      by_cases h2 : keysIntersect (keysOf L) (keysOf c) = true
      · rw [if_pos h2, if_pos h2]
      · rw [if_neg h2, if_neg h2, ih]

theorem matchAux_cons_eq (ntl : List (Str × List Str)) (lib csv : Catalog)
    (L : Str × TitleEntry) (Ls : List (Str × TitleEntry)) (p : List Str) :
    matchAux ntl lib csv (L :: Ls) p =
      match firstAvail ntl lib L p csv with
      | some m => m :: matchAux ntl lib csv Ls (setInsert m.csv_title p)
      | none => matchAux ntl lib csv Ls p := rfl

theorem matchAux_congr (ntl : List (Str × List Str)) (lib csv : Catalog) :
    ∀ (Ls : List (Str × TitleEntry)) {p q : List Str}, (∀ t, t ∈ p ↔ t ∈ q) →
      matchAux ntl lib csv Ls p = matchAux ntl lib csv Ls q := by
  intro Ls
  induction Ls with
  | nil => intro p q _; rfl
  | cons L Ls ih =>
    intro p q h
    rw [matchAux_cons_eq ntl lib csv L Ls p, matchAux_cons_eq ntl lib csv L Ls q,
      firstAvail_congr ntl lib L h csv]
    cases hfa : firstAvail ntl lib L q csv with
    | none =>
      dsimp only
      exact ih h
    | some m0 =>
      have hins : ∀ t, t ∈ setInsert m0.csv_title p ↔ t ∈ setInsert m0.csv_title q := by
        intro t
        rw [mem_setInsert, mem_setInsert, h t]
      dsimp only
      rw [ih hins]

theorem matchAux_append (ntl : List (Str × List Str)) (lib csv : Catalog) :
    ∀ (Xs Ys : List (Str × TitleEntry)) (p : List Str),
      matchAux ntl lib csv (Xs ++ Ys) p =
        matchAux ntl lib csv Xs p ++
          matchAux ntl lib csv Ys
            ((matchAux ntl lib csv Xs p).map (fun m => m.csv_title) ++ p) := by
  intro Xs
  induction Xs with
  | nil =>
    intro Ys p
    simp [matchAux]
  | cons L Xs ih =>
    intro Ys p
    rw [List.cons_append]
    rw [matchAux_cons_eq ntl lib csv L (Xs ++ Ys) p, matchAux_cons_eq ntl lib csv L Xs p]
    cases hfa : firstAvail ntl lib L p csv with
    | none =>
      dsimp only
      exact ih Ys p
    | some m0 =>
      dsimp only
      rw [ih Ys (setInsert m0.csv_title p), List.cons_append]
      congr 1
      congr 1
      apply matchAux_congr
      intro t
      simp only [List.map_cons, List.cons_append, List.mem_append, mem_setInsert,
        List.mem_cons]
      tauto

theorem matchAux_decompose (ntl : List (Str × List Str)) (lib csv : Catalog)
    (Ls : List (Str × TitleEntry)) (i : Nat) (hi : i < Ls.length) :
    matchAux ntl lib csv Ls [] =
      matchAux ntl lib csv (Ls.take i) [] ++
        matchAux ntl lib csv (Ls.get ⟨i, hi⟩ :: Ls.drop (i + 1))
          ((matchAux ntl lib csv (Ls.take i) []).map (fun m => m.csv_title)) := by
  conv_lhs => rw [← List.take_append_drop i Ls]
  rw [matchAux_append ntl lib csv (Ls.take i) (Ls.drop i) []]
  congr 1
  rw [List.append_nil]
  congr 1
  rw [List.drop_eq_getElem_cons hi, List.get_eq_getElem]

theorem find_decompose (lib csv : Catalog) (i : Nat) (hi : i < lib.length) :
    find_matching_titles lib csv =
      matchAux (build_norm_to_lib lib) lib csv (lib.take i) [] ++
        matchAux (build_norm_to_lib lib) lib csv
          (lib.get ⟨i, hi⟩ :: lib.drop (i + 1)) (selectedBefore lib csv i) :=
  matchAux_decompose (build_norm_to_lib lib) lib csv lib i hi

theorem lib_originals_nodup {lib : Catalog}
    (hk : (lib.map Prod.fst).Nodup)
    (ho : ∀ p ∈ lib, p.1 = normalize_title p.2.original) :
    (lib.map (fun q => q.2.original)).Nodup := by
  have h1 : lib.map Prod.fst = lib.map (fun q => normalize_title q.2.original) :=
    List.map_congr_left ho
  have h2 : lib.map (fun q => normalize_title q.2.original) =
      (lib.map (fun q => q.2.original)).map normalize_title := by
    rw [List.map_map]
    rfl
  rw [h1, h2] at hk
  exact hk.of_map

theorem take_drop_originals (lib : Catalog) (i : Nat) (hi : i < lib.length)
    (hnd : (lib.map (fun q => q.2.original)).Nodup) :
    (lib.get ⟨i, hi⟩).2.original ∉ (lib.take i).map (fun q => q.2.original)
    ∧ (lib.get ⟨i, hi⟩).2.original ∉ (lib.drop (i + 1)).map (fun q => q.2.original) := by
  have hsplit : lib.map (fun q => q.2.original) =
      (lib.take i).map (fun q => q.2.original) ++ (lib.drop i).map (fun q => q.2.original) := by
    rw [← List.map_append, List.take_append_drop]
  have hdropc : (lib.drop i).map (fun q => q.2.original) =
      (lib.get ⟨i, hi⟩).2.original :: (lib.drop (i + 1)).map (fun q => q.2.original) := by
    rw [List.drop_eq_getElem_cons hi, List.map_cons, List.get_eq_getElem]
  rw [hsplit, hdropc, List.nodup_append] at hnd
  obtain ⟨h1, h2, h3⟩ := hnd
  constructor
  · intro hmem
    exact h3 hmem (List.mem_cons_self _ _)
  · exact (List.nodup_cons.mp h2).1

/-- C1 counterexample: a library record whose key set intersects the
reference index can produce zero Matches, because a reference record
selected by an earlier Match is **not** eligible again: with two library
records both aliasing `C` and a single reference record `C`, the second
library record's key set intersects but yields no Match. -/
theorem c1_claim_counterexample :
    keysIntersect (keysOf (("b").toList, ⟨("B").toList, [("C").toList]⟩))
        (keysOf (("c").toList, ⟨("C").toList, []⟩)) = true
    ∧ (find_matching_titles libEx1 csvEx1).countP
        (fun m => decide (m.library_title = ("B").toList)) = 0 :=
  ⟨by decide, by decide⟩

/-- C1 (amended): every library record produces at most one Match; it
produces exactly one when its key set intersects the key set of some
reference record not selected by an earlier library record, and zero when
it intersects no reference record at all; each reference record's original
title is selected by at most one Match — once selected, a reference record
is skipped rather than re-eligible. -/
theorem c1_matcher_amended (lib csv : Catalog)
    (hk : (lib.map Prod.fst).Nodup)
    (ho : ∀ p ∈ lib, p.1 = normalize_title p.2.original)
    (i : Nat) (hi : i < lib.length) :
    ((∃ c ∈ csv, c.2.original ∉ selectedBefore lib csv i ∧
        keysIntersect (keysOf (lib.get ⟨i, hi⟩)) (keysOf c) = true) →
      (find_matching_titles lib csv).countP
        (fun m => decide (m.library_title = (lib.get ⟨i, hi⟩).2.original)) = 1)
    ∧ ((∀ c ∈ csv, keysIntersect (keysOf (lib.get ⟨i, hi⟩)) (keysOf c) = false) →
      (find_matching_titles lib csv).countP
        (fun m => decide (m.library_title = (lib.get ⟨i, hi⟩).2.original)) = 0)
    ∧ ∀ t : Str,
        (find_matching_titles lib csv).countP (fun m => decide (m.csv_title = t)) ≤ 1 := by
  have hnd := lib_originals_nodup hk ho
  obtain ⟨hT, hD⟩ := take_drop_originals lib i hi hnd
  have hdecomp := find_decompose lib csv i hi
  refine ⟨?_, ?_, ?_⟩
  · rintro ⟨c, hc, hcnp, hcint⟩
    cases hfa2 : firstAvail (build_norm_to_lib lib) lib (lib.get ⟨i, hi⟩)
        (selectedBefore lib csv i) csv with
    | none =>
      rcases (firstAvail_eq_none_iff _ _ _ _ csv).mp hfa2 c hc with hmem | hfalse
      · exact absurd hmem hcnp
      · rw [hcint] at hfalse
        exact absurd hfalse (by simp)
    | some m0 =>
      rw [hdecomp, List.countP_append, matchAux_countP_lib_zero _ _ _ _ _ _ hT,
        matchAux_cons_eq, hfa2]
      dsimp only
      rw [List.countP_cons, matchAux_countP_lib_zero _ _ _ _ _ _ hD]
      have hm0lib : m0.library_title = (lib.get ⟨i, hi⟩).2.original := by
        obtain ⟨j, hj, hmeq, _, _, _⟩ := firstAvail_some_spec _ _ _ _ csv m0 hfa2
        rw [hmeq]
        rfl
      simp [hm0lib]
  · intro hnone
    have hfa0 : firstAvail (build_norm_to_lib lib) lib (lib.get ⟨i, hi⟩)
        (selectedBefore lib csv i) csv = none :=
      (firstAvail_eq_none_iff _ _ _ _ csv).mpr (fun c hc => Or.inr (hnone c hc))
    rw [hdecomp, List.countP_append, matchAux_countP_lib_zero _ _ _ _ _ _ hT,
      matchAux_cons_eq, hfa0]
    dsimp only
    rw [matchAux_countP_lib_zero _ _ _ _ _ _ hD]
  · intro t
    exact matchAux_countP_csv_le_one (build_norm_to_lib lib) lib csv t lib []

/-- Witness for C1 (amended): the `Naruto`/`NARUTO` scenario yields exactly
one Match for the library record. -/
theorem c1_matcher_amended_witness :
    (find_matching_titles libEx4 csvEx4).countP
      (fun m => decide (m.library_title = ("Naruto").toList)) = 1 :=
  (c1_matcher_amended libEx4 csvEx4 (by decide) (by decide) 0 (by decide)).1 (by decide)

/-- C2 counterexample: the Matcher does not iterate L's keys main-title
first — it scans the reference catalog in order and takes the first
intersecting record via any key.  Here the spec's selection rule picks the
reference record `A` (via L's main-title key) but the code emits `B` (the
first reference record in catalog order, via L's alias key). -/
theorem c2_claim_counterexample :
    spec_first_selected (("a").toList, ⟨("A").toList, [("B").toList]⟩) csvEx2 =
        some (("A").toList)
    ∧ (find_matching_titles libEx2 csvEx2).map (fun m => m.csv_title) = [("B").toList]
    ∧ ("B").toList ≠ ("A").toList :=
  ⟨by decide, by decide, by decide⟩

/-- C2 (amended): whenever a Match is emitted for a library record, its
reference side is the **first reference record in the reference catalog's
original order** — among those not selected by earlier library records —
whose key set intersects the library record's key set; the iteration order
of the library record's keys plays no role. -/
theorem c2_selection_amended (lib csv : Catalog)
    (hk : (lib.map Prod.fst).Nodup)
    (ho : ∀ p ∈ lib, p.1 = normalize_title p.2.original)
    (i : Nat) (hi : i < lib.length) (m : MatchInfo)
    (hm : m ∈ find_matching_titles lib csv)
    (hlib : m.library_title = (lib.get ⟨i, hi⟩).2.original) :
    ∃ j, ∃ hj : j < csv.length,
      m.csv_title = (csv.get ⟨j, hj⟩).2.original
      ∧ keysIntersect (keysOf (lib.get ⟨i, hi⟩)) (keysOf (csv.get ⟨j, hj⟩)) = true
      ∧ (csv.get ⟨j, hj⟩).2.original ∉ selectedBefore lib csv i
      ∧ ∀ j' (hj' : j' < j),
          (csv.get ⟨j', Nat.lt_trans hj' hj⟩).2.original ∈ selectedBefore lib csv i
          ∨ keysIntersect (keysOf (lib.get ⟨i, hi⟩))
              (keysOf (csv.get ⟨j', Nat.lt_trans hj' hj⟩)) = false := by
  have hnd := lib_originals_nodup hk ho
  obtain ⟨hT, hD⟩ := take_drop_originals lib i hi hnd
  rw [find_decompose lib csv i hi] at hm
  rcases List.mem_append.mp hm with hmA | hmB
  · exact absurd (hlib ▸ matchAux_lib_mem _ _ _ _ _ _ hmA) hT
  · rw [matchAux_cons_eq] at hmB
    cases hfa : firstAvail (build_norm_to_lib lib) lib (lib.get ⟨i, hi⟩)
        (selectedBefore lib csv i) csv with
    | none =>
      rw [hfa] at hmB
      dsimp only at hmB
      exact absurd (hlib ▸ matchAux_lib_mem _ _ _ _ _ _ hmB) hD
    | some m0 =>
      rw [hfa] at hmB
      dsimp only at hmB
      rcases List.mem_cons.mp hmB with rfl | hm2
      · obtain ⟨j, hj, hmeq, hp2, hint, hmin⟩ := firstAvail_some_spec _ _ _ _ csv m hfa
        refine ⟨j, hj, ?_, hint, hp2, hmin⟩
        rw [hmeq]
        rfl
      · exact absurd (hlib ▸ matchAux_lib_mem _ _ _ _ _ _ hm2) hD

/-- Witness for C2 (amended) on `libEx2`/`csvEx2`: the emitted Match's
reference side is the first intersecting reference record in catalog
order. -/
theorem c2_selection_amended_witness :
    ∃ j, ∃ hj : j < csvEx2.length,
      (⟨("A").toList, [("B").toList], ("B").toList, []⟩ : MatchInfo).csv_title =
          (csvEx2.get ⟨j, hj⟩).2.original
      ∧ keysIntersect (keysOf (libEx2.get ⟨0, by decide⟩)) (keysOf (csvEx2.get ⟨j, hj⟩)) = true
      ∧ (csvEx2.get ⟨j, hj⟩).2.original ∉ selectedBefore libEx2 csvEx2 0
      ∧ ∀ j' (hj' : j' < j),
          (csvEx2.get ⟨j', Nat.lt_trans hj' hj⟩).2.original ∈ selectedBefore libEx2 csvEx2 0
          ∨ keysIntersect (keysOf (libEx2.get ⟨0, by decide⟩))
              (keysOf (csvEx2.get ⟨j', Nat.lt_trans hj' hj⟩)) = false :=
  c2_selection_amended libEx2 csvEx2 (by decide) (by decide) 0 (by decide)
    (⟨("A").toList, [("B").toList], ("B").toList, []⟩ : MatchInfo) (by decide) (by decide)

theorem collectOne_fst_superset (lib : Catalog) (st2 : List Str × List Str) (o x : Str)
    (hx : x ∈ st2.1) : x ∈ (collectOne lib st2 o).1 := by
  unfold collectOne
  cases lib.find? (fun p => decide (p.2.original = o)) with
  | none => exact mem_setInsert.mpr (Or.inr hx)
  | some rel => exact mem_setInsert.mpr (Or.inr hx)

theorem collectRelated_fst_superset (ntl : List (Str × List Str)) (lib : Catalog)
    (st : List Str × List Str) (k x : Str) (hx : x ∈ st.1) :
    x ∈ (collectRelated ntl lib st k).1 := by
  unfold collectRelated
  cases lookupMulti ntl k with
  | none => exact hx
  | some origs =>
    induction origs generalizing st with
    | nil => exact hx
    | cons o os ih => exact ih (collectOne lib st o) (collectOne_fst_superset lib st o x hx)

theorem foldl_collectRelated_fst_superset (ntl : List (Str × List Str)) (lib : Catalog)
    (ks : List Str) :
    ∀ (st : List Str × List Str) (x : Str), x ∈ st.1 →
      x ∈ (ks.foldl (collectRelated ntl lib) st).1 := by
  induction ks with
  | nil => exact fun st x hx => hx
  | cons k ks ih =>
    intro st x hx
    exact ih (collectRelated ntl lib st k) x (collectRelated_fst_superset ntl lib st k x hx)

theorem collectOne_snd_nodup (lib : Catalog) (st2 : List Str × List Str) (o : Str)
    (h : st2.2.Nodup) : (collectOne lib st2 o).2.Nodup := by
  unfold collectOne
  cases lib.find? (fun p => decide (p.2.original = o)) with
  | none => exact h
  | some rel => exact nodup_foldl_setInsert (fun x => x) rel.2.alt_titles st2.2 h

theorem collectRelated_snd_nodup (ntl : List (Str × List Str)) (lib : Catalog)
    (st : List Str × List Str) (k : Str) (h : st.2.Nodup) :
    (collectRelated ntl lib st k).2.Nodup := by
  unfold collectRelated
  cases lookupMulti ntl k with
  | none => exact h
  | some origs =>
    induction origs generalizing st with
    | nil => exact h
    | cons o os ih => exact ih (collectOne lib st o) (collectOne_snd_nodup lib st o h)

theorem foldl_collectRelated_snd_nodup (ntl : List (Str × List Str)) (lib : Catalog)
    (ks : List Str) :
    ∀ st : List Str × List Str, st.2.Nodup →
      (ks.foldl (collectRelated ntl lib) st).2.Nodup := by
  induction ks with
  | nil => exact fun _ h => h
  | cons k ks ih =>
    intro st h
    exact ih (collectRelated ntl lib st k) (collectRelated_snd_nodup ntl lib st k h)

theorem matchAux_mem_mkMatch (ntl : List (Str × List Str)) (lib csv : Catalog) :
    ∀ (Ls : List (Str × TitleEntry)) (p : List Str) (m : MatchInfo),
      m ∈ matchAux ntl lib csv Ls p →
      ∃ L, L ∈ Ls ∧ ∃ c, c ∈ csv ∧ m = mkMatch ntl lib L c := by
  intro Ls
  induction Ls with
  | nil => intro p m hm; simp [matchAux] at hm
  | cons L Ls ih =>
    intro p m hm
    unfold matchAux at hm
    cases hfa : firstAvail ntl lib L p csv with
    | some m0 =>
      rw [hfa] at hm
      rcases List.mem_cons.mp hm with rfl | hm2
      · obtain ⟨j, hj, hmeq, _, _, _⟩ := firstAvail_some_spec ntl lib L p csv m hfa
        exact ⟨L, List.mem_cons_self _ _, csv.get ⟨j, hj⟩, List.get_mem csv j hj, hmeq⟩
      · obtain ⟨L2, hL2, c2, hc2, hm2eq⟩ := ih _ m hm2
        exact ⟨L2, List.mem_cons_of_mem _ hL2, c2, hc2, hm2eq⟩
    | none =>
      rw [hfa] at hm
      obtain ⟨L2, hL2, c2, hc2, hm2eq⟩ := ih _ m hm
      exact ⟨L2, List.mem_cons_of_mem _ hL2, c2, hc2, hm2eq⟩

theorem mkMatch_not_self (ntl : List (Str × List Str)) (lib : Catalog)
    (L c : Str × TitleEntry) :
    (mkMatch ntl lib L c).library_title ∉ (mkMatch ntl lib L c).library_alt_titles := by
  intro hmem
  unfold mkMatch at hmem
  dsimp only at hmem
  unfold sortStrs at hmem
  have h2 := mem_sortByKey.mp hmem
  have h3 := List.of_mem_filter h2
  have h4 := of_decide_eq_true h3
  apply h4
  apply foldl_collectRelated_fst_superset
  exact List.mem_singleton.mpr rfl

theorem mkMatch_alts_sorted (ntl : List (Str × List Str)) (lib : Catalog)
    (L c : Str × TitleEntry) :
    List.Pairwise (fun a b => strLe a b = true) (mkMatch ntl lib L c).library_alt_titles := by
  show List.Pairwise _ (sortStrs _)
  unfold sortStrs
  exact sortByKey_pairwise id _

theorem mkMatch_alts_nodup (ntl : List (Str × List Str)) (lib : Catalog)
    (L c : Str × TitleEntry) : (mkMatch ntl lib L c).library_alt_titles.Nodup := by
  show (sortStrs _).Nodup
  unfold sortStrs
  apply nodup_sortByKey
  apply List.Nodup.filter
  apply foldl_collectRelated_snd_nodup
  exact nodup_foldl_setInsert (fun x => x) L.2.alt_titles [] List.nodup_nil

/-- C3 counterexample: the aggregated alias lists of a Match are not the
set union of the two sides' aliases with both main titles removed — the
emitted Match for a library record whose alias is the reference record's
main title carries that reference title verbatim in its library alias
list. -/
theorem c3_claim_counterexample :
    find_matching_titles libEx3 csvEx3 =
      [⟨("S").toList, [("C").toList], ("C").toList, []⟩]
    ∧ ∀ m ∈ find_matching_titles libEx3 csvEx3, m.csv_title ∈ m.library_alt_titles :=
  ⟨by decide, by decide⟩

/-- C3 (amended): every emitted Match carries two alias lists, not one
union.  `library_alt_titles` is the set of alternative titles of the
library record and of every library record sharing one of the match's keys,
minus the original titles of those records — it never contains the chosen
`library_title`, is duplicate-free and sorted by code point
(case-sensitively), but may contain the reference title verbatim;
`csv_alt_titles` is the reference record's alias list passed through
unchanged, with no filtering against either main title. -/
theorem c3_aliases_amended (lib csv : Catalog) (m : MatchInfo)
    (hm : m ∈ find_matching_titles lib csv) :
    m.library_title ∉ m.library_alt_titles
    ∧ List.Pairwise (fun a b => strLe a b = true) m.library_alt_titles
    ∧ m.library_alt_titles.Nodup
    ∧ ∃ c, c ∈ csv ∧ m.csv_title = c.2.original ∧ m.csv_alt_titles = c.2.alt_titles := by
  obtain ⟨L, _, c, hc, rfl⟩ :=
    matchAux_mem_mkMatch (build_norm_to_lib lib) lib csv lib [] m hm
  exact ⟨mkMatch_not_self _ _ _ _, mkMatch_alts_sorted _ _ _ _, mkMatch_alts_nodup _ _ _ _,
    c, hc, rfl, rfl⟩

/-- Witness for C3 (amended) on the Match emitted for `libEx3`/`csvEx3`. -/
theorem c3_aliases_amended_witness :
    (⟨("S").toList, [("C").toList], ("C").toList, []⟩ : MatchInfo).library_title ∉
        (⟨("S").toList, [("C").toList], ("C").toList, []⟩ : MatchInfo).library_alt_titles
    ∧ List.Pairwise (fun a b => strLe a b = true)
        (⟨("S").toList, [("C").toList], ("C").toList, []⟩ : MatchInfo).library_alt_titles
    ∧ (⟨("S").toList, [("C").toList], ("C").toList, []⟩ : MatchInfo).library_alt_titles.Nodup
    ∧ ∃ c, c ∈ csvEx3 ∧
        (⟨("S").toList, [("C").toList], ("C").toList, []⟩ : MatchInfo).csv_title = c.2.original
        ∧ (⟨("S").toList, [("C").toList], ("C").toList, []⟩ : MatchInfo).csv_alt_titles =
            c.2.alt_titles :=
  c3_aliases_amended libEx3 csvEx3
    (⟨("S").toList, [("C").toList], ("C").toList, []⟩ : MatchInfo) (by decide)
